import Mathlib

/-!
Shallow embedding of the msod-stat delta-sync engine (src/item.rs, src/size.rs,
src/sync.rs, src/storage.rs, src/main.rs) and proofs about its specification.

Machine integers are modelled as `Nat` with explicit `% 2 ^ w` at the points
where the Rust release build performs wrapping arithmetic; a failed `assert!`
(a panic) is modelled by returning `none`.
-/

namespace Msod

/-- Embeds `Hash` from src/item.rs: optional sha1 and quickXor strings. -/
structure Hash where
  sha : Option String
  xor : Option String
deriving DecidableEq

/-- Embeds `Parent` from src/item.rs: optional path and a drive type string. -/
structure Parent where
  path : Option String
  drive_type : String
deriving DecidableEq

/-- Embeds `ItemType` from src/item.rs. -/
inductive ItemType where
  | File (hashes : Option Hash)
  | Folder
  | Package
deriving DecidableEq

/-- Embeds `Item` from src/item.rs; `deleted : Option<Exists>` is a presence
flag, modelled as `Bool`. `size : u64` is modelled as `Nat`. -/
structure Item where
  id : String
  name : String
  size : Nat
  parent : Parent
  item_type : ItemType
  deleted : Bool
deriving DecidableEq

/-- Modulus of the Rust `u64` type. -/
def U64 : Nat := 2 ^ 64

/-- Modulus of the Rust `u32` type. -/
def U32 : Nat := 2 ^ 32

/-- True exactly on the `File` variant (Rust `if let ItemType::File {..}`). -/
def ItemType.isFile : ItemType → Bool
  | .File _ => true
  | .Folder => false
  | .Package => false

/-- Embeds `DriveState` from src/item.rs. The `HashMap<String, Item>` is
modelled as an association list from id to item. -/
structure DriveState where
  size : Nat
  items : List (String × Item)
deriving DecidableEq

/-- A fresh `DriveState`, as built by `DriveSnapshot::default`. -/
def DriveState.fresh : DriveState := ⟨0, []⟩

/-- Lookup by key in the association list (HashMap::get semantics). -/
def lookupId (items : List (String × Item)) (k : String) : Option Item :=
  match items with
  | [] => none
  | (k', v) :: rest => if k' = k then some v else lookupId rest k

/-- Insert by key, replacing an existing binding (HashMap::insert semantics). -/
def insertId (k : String) (v : Item) (items : List (String × Item)) :
    List (String × Item) :=
  match items with
  | [] => [(k, v)]
  | (k', v') :: rest =>
    if k' = k then (k, v) :: rest else (k', v') :: insertId k v rest

/-- Remove by key (HashMap::remove semantics). -/
def removeId (k : String) (items : List (String × Item)) : List (String × Item) :=
  match items with
  | [] => []
  | (k', v') :: rest =>
    if k' = k then rest else (k', v') :: removeId k rest

/-- Contribution of one item to the `size` total: its size if it is a File. -/
def fileContrib (i : Item) : Nat :=
  if i.item_type.isFile then i.size else 0

/-- Sum of `item.size` over the file-typed items of the map. -/
def fileSizeSum : List (String × Item) → Nat
  | [] => 0
  | p :: rest => fileContrib p.2 + fileSizeSum rest

/-- Embeds `DriveState::reset` (src/item.rs lines 65-69): empty the map and
zero the size. -/
def DriveState.reset (_st : DriveState) : DriveState := ⟨0, []⟩

/-- Embeds `DriveState::upsert` (src/item.rs lines 71-83) with Rust release
semantics: the `self.size += item.size` wraps modulo `2 ^ 64`, and a failing
`assert!(size <= self.size)` (a panic) is `none`. -/
def DriveState.upsert (st : DriveState) (item : Item) : Option DriveState :=
  let size1 := if item.item_type.isFile then (st.size + item.size) % U64 else st.size
  let prev := lookupId st.items item.id
  let items1 := insertId item.id item st.items
  match prev with
  | some p =>
    if p.item_type.isFile then
      if p.size ≤ size1 then some ⟨size1 - p.size, items1⟩ else none
    else some ⟨size1, items1⟩
  | none => some ⟨size1, items1⟩

/-- Embeds `DriveState::delete` (src/item.rs lines 85-94); a failing
`assert!(size <= self.size)` is `none`. -/
def DriveState.delete (st : DriveState) (item : Item) : Option DriveState :=
  match lookupId st.items item.id with
  | some p =>
    let items1 := removeId item.id st.items
    if p.item_type.isFile then
      if p.size ≤ st.size then some ⟨st.size - p.size, items1⟩ else none
    else some ⟨st.size, items1⟩
  | none => some st

/-- One abstract operation on a `DriveState`. -/
inductive Op where
  | upsert (item : Item)
  | delete (item : Item)
  | reset

/-- Apply one operation; `none` propagates a panic. -/
def applyOp (st : DriveState) : Op → Option DriveState
  | .upsert item => st.upsert item
  | .delete item => st.delete item
  | .reset => some st.reset

/-- Apply a sequence of operations from left to right. -/
def runOps (st : DriveState) : List Op → Option DriveState
  | [] => some st
  | op :: rest =>
    match applyOp st op with
    | some st' => runOps st' rest
    | none => none

/-- Embeds `ItemHandler::handle` (src/main.rs lines 251-259): dispatch to
`delete` when the `deleted` flag is set, else to `upsert`. -/
def handleItem (st : DriveState) (item : Item) : Option DriveState :=
  if item.deleted then st.delete item else st.upsert item

/-- Apply one batch of items in order through the Applier dispatch. -/
def applyBatch (st : DriveState) : List Item → Option DriveState
  | [] => some st
  | i :: rest =>
    match handleItem st i with
    | some st' => applyBatch st' rest
    | none => none

/-- Apply a sequence of batches. -/
def runBatches (st : DriveState) : List (List Item) → Option DriveState
  | [] => some st
  | b :: rest =>
    match applyBatch st b with
    | some st' => runBatches st' rest
    | none => none

/-- One channel message of `sync_drive_items`: `Some(batch)` or the `None`
reset signal. -/
abbrev Msg : Type := Option (List Item)

/-- Embeds one iteration of the Applier loop (src/sync.rs lines 205-222):
a batch is dispatched item by item, a `None` resets the state. -/
def applyMsg (st : DriveState) : Msg → Option DriveState
  | some batch => applyBatch st batch
  | none => some st.reset

/-- Process a sequence of channel messages. -/
def runMsgs (st : DriveState) : List Msg → Option DriveState
  | [] => some st
  | m :: rest =>
    match applyMsg st m with
    | some st' => runMsgs st' rest
    | none => none

/-! Duplicate bucketer, embedding src/size.rs. -/

/-- Embeds `ItemHash` from src/size.rs. -/
inductive ItemHash where
  | Sha1 (s : String)
  | QuickXor (s : String)
deriving DecidableEq

/-- True when `pat` occurs as a contiguous run inside `l`
(Rust `str::contains` on the character lists). -/
def hasInfixList (pat : List Char) : List Char → Bool
  | [] => pat.isEmpty
  | c :: rest => pat.isPrefixOf (c :: rest) || hasInfixList pat rest

/-- Rust `str::contains(pat)` for string patterns. -/
def containsStr (s pat : String) : Bool := hasInfixList pat.toList s.toList

/-- Rust `str::ends_with(pat)`. -/
def endsWithStr (s pat : String) : Bool := pat.toList.isSuffixOf s.toList

/-- Embeds `ignore_path` (src/size.rs lines 11-16). -/
def ignore_path (dirname basename : String) : Bool :=
  endsWithStr basename (".svn-base") && containsStr dirname ("/.svn/pristine/")

/-- Rust `str::trim_start_matches`: repeatedly remove the leading occurrence
of `pat`, on character lists. -/
def trimStartList (pat : List Char) (l : List Char) : List Char :=
  if h : pat ≠ [] ∧ pat.isPrefixOf l then trimStartList pat (l.drop pat.length)
  else l
termination_by l.length
decreasing_by
  have hp : pat <+: l := by
    have h2 := h.2
    exact List.isPrefixOf_iff_prefix.mp h2
  have h1 : pat.length ≤ l.length := hp.length_le
  have h2 : 0 < pat.length := List.length_pos.mpr h.1
  simp only [List.length_drop]
  omega

/-- Rust `str::trim_start_matches` on strings. -/
def trim_start_matches (s pat : String) : String :=
  String.mk (trimStartList pat.toList s.toList)

/-- The per-item work of the `ItemType::File` arm of the `bucket_by_size`
loop (src/size.rs lines 34-83): `none` when the item is skipped by a
`continue`, otherwise the `(size, hash, displayed name)` it inserts. -/
def classify (item : Item) : Option (Nat × ItemHash × String) :=
  match item.item_type with
  | .Folder => none
  | .Package => none
  | .File hashes =>
    match item.parent.path with
    | none => none
    | some path =>
      let dirname := trim_start_matches path ("/drive/root:/")
      if ignore_path dirname item.name then none
      else
        match hashes with
        | none => none
        | some h =>
          if item.parent.drive_type = "personal" then
            match h.sha with
            | some sha => some (item.size, ItemHash.Sha1 sha, dirname ++ ("/") ++ item.name)
            | none => none
          else if item.parent.drive_type = "business" ∨
              item.parent.drive_type = "documentLibrary" then
            match h.xor with
            | some xor => some (item.size, ItemHash.QuickXor xor, dirname ++ ("/") ++ item.name)
            | none => none
          else none

/-- The inner `HashMap<ItemHash, Vec<String>>` of the bucketer, as an
association list. -/
abbrev Inner : Type := List (ItemHash × List String)

/-- The outer `BTreeMap<u64, ...>` of the bucketer, as an association list
kept sorted by ascending size. -/
abbrev BySize : Type := List (Nat × List (ItemHash × List String))

/-- Rust `names_by_hash.entry(hash).or_insert_with(Vec::new).push(name)`:
append `n` to the vector at key `h`, creating the entry if absent. -/
def insertName (h : ItemHash) (n : String) : Inner → Inner
  | [] => [(h, [n])]
  | (h', ns) :: rest =>
    if h' = h then (h', ns ++ [n]) :: rest else (h', ns) :: insertName h n rest

/-- Rust `names_by_hash_by_size.entry(size).or_insert_with(...)` followed by
the inner insert: ordered insertion into the size-sorted map. -/
def insertBySize (sz : Nat) (h : ItemHash) (n : String) : BySize → BySize
  | [] => [(sz, [(h, [n])])]
  | (sz', inner) :: rest =>
    if sz < sz' then (sz, [(h, [n])]) :: (sz', inner) :: rest
    else if sz = sz' then (sz', insertName h n inner) :: rest
    else (sz', inner) :: insertBySize sz h n rest

/-- One iteration of the `bucket_by_size` loop (src/size.rs lines 31-88).
The `u32` counters wrap modulo `2 ^ 32` as in a Rust release build. -/
def bucketStep (acc : Nat × Nat × BySize) (item : Item) : Nat × Nat × BySize :=
  match item.item_type with
  | .File _ =>
    let fc := (acc.1 + 1) % U32
    match classify item with
    | some (sz, h, n) => (fc, acc.2.1, insertBySize sz h n acc.2.2)
    | none => (fc, acc.2.1, acc.2.2)
  | .Folder => (acc.1, (acc.2.1 + 1) % U32, acc.2.2)
  | .Package => (acc.1, (acc.2.1 + 1) % U32, acc.2.2)

/-- Embeds `bucket_by_size` (src/size.rs lines 18-91). The input list stands
for `names_by_hash.values()` in iteration order; the progress bar is elided. -/
def bucket_by_size (l : List Item) : Nat × Nat × BySize :=
  l.foldl bucketStep (0, 0, [])

/-- First entry of the outer map at size `sz` (BTreeMap::get). -/
def sizeEntry (m : BySize) (sz : Nat) : Option Inner :=
  match m with
  | [] => none
  | (sz', inner) :: rest => if sz' = sz then some inner else sizeEntry rest sz

/-- First entry of the inner map at hash `h` (HashMap::get). -/
def hashNames (inner : Inner) (h : ItemHash) : Option (List String) :=
  match inner with
  | [] => none
  | (h', ns) :: rest => if h' = h then some ns else hashNames rest h

/-- The list of paths recorded under the key pair `(sz, h)`. -/
def namesAt (m : BySize) (sz : Nat) (h : ItemHash) : List String :=
  match sizeEntry m sz with
  | none => []
  | some inner => (hashNames inner h).getD []

/-- The hash the spec's table selects for a drive type: Sha1 of `hashes.sha1`
for `personal`, QuickXor of `hashes.quick_xor` for `business` or
`documentLibrary`, nothing otherwise. -/
def specSelectedHash (p : Parent) (h : Hash) : Option ItemHash :=
  if p.drive_type = "personal" then h.sha.map ItemHash.Sha1
  else if p.drive_type = "business" ∨ p.drive_type = "documentLibrary" then
    h.xor.map ItemHash.QuickXor
  else none

/-- The spec's description of what the bucketer records for a file, amended
with the one skip the code adds: the hash selected by the drive type must be
present. Skips: missing parent path, missing hashes, unknown drive type,
ignored path, missing selected hash. -/
def specProcess (item : Item) : Option (Nat × ItemHash × String) :=
  match item.item_type with
  | .Folder => none
  | .Package => none
  | .File hashes =>
    match item.parent.path, hashes with
    | some path, some h =>
      let dirname := trim_start_matches path ("/drive/root:/")
      if ignore_path dirname item.name then none
      else (specSelectedHash item.parent h).map
        (fun ih => (item.size, ih, dirname ++ ("/") ++ item.name))
    | some _, none => none
    | none, _ => none

/-- The skip condition exactly as claim C2 words it: parent path absent,
hashes absent, drive type other than the three known ones, or the
`.svn-base` under `/.svn/pristine/` ignore policy. Only meaningful for
file items. -/
def claimSkip (item : Item) : Bool :=
  match item.item_type with
  | .Folder => true
  | .Package => true
  | .File hashes =>
    item.parent.path.isNone || hashes.isNone ||
    !(decide (item.parent.drive_type = "personal" ∨
       item.parent.drive_type = "business" ∨
       item.parent.drive_type = "documentLibrary")) ||
    (match item.parent.path with
     | some path =>
       ignore_path (trim_start_matches path ("/drive/root:/")) item.name
     | none => true)

/-- The display names of the items of `l` that the code records under the
key pair `(sz, h)`, in order. -/
def keyNames (l : List Item) (sz : Nat) (h : ItemHash) : List String :=
  ((l.filterMap classify).filter
    (fun t => decide (t.1 = sz) && decide (t.2.1 = h))).map (fun t => t.2.2)

/-- The display names of the items of `l` that the (amended) spec expects
under the key pair `(sz, h)`, in order. -/
def specKeyNames (l : List Item) (sz : Nat) (h : ItemHash) : List String :=
  ((l.filterMap specProcess).filter
    (fun t => decide (t.1 = sz) && decide (t.2.1 = h))).map (fun t => t.2.2)

/-- Number of file-typed items in the list. -/
def countFiles (l : List Item) : Nat := l.countP (fun i => i.item_type.isFile)

/-- True on `Folder` and `Package` items. -/
def folderOrPackage (i : Item) : Bool :=
  match i.item_type with
  | .Folder => true
  | .Package => true
  | .File _ => false

/-- Number of folder- or package-typed items in the list. -/
def countFolders (l : List Item) : Nat := l.countP folderOrPackage

/-! Fetcher, embedding src/sync.rs. -/

/-- Embeds `SyncLink` from src/sync.rs: continuation or terminal cursor. -/
inductive SyncLink where
  | More (next : String)
  | Done (delta : String)
deriving DecidableEq

/-- Embeds `SyncPage` from src/sync.rs. -/
structure SyncPage (α : Type) where
  value : List α
  link : SyncLink

/-- Outcome of reading and deserializing a 200 response body:
`ok` a page, `parseFail` when serde_json fails, `readFail` when
`response.text()` fails. -/
inductive BodyResult (α : Type) where
  | ok (page : SyncPage α)
  | parseFail
  | readFail

/-- An HTTP header value: a string when `to_str()` succeeds, `invalid`
when the bytes are not visible ASCII. -/
inductive HeaderValue where
  | valid (s : String)
  | invalid
deriving DecidableEq

/-- A received HTTP response, as far as `fetch_items` inspects it. -/
structure Response (α : Type) where
  status : Nat
  location : Option HeaderValue
  retryAfter : Option HeaderValue
  body : BodyResult α

/-- Control state after one iteration of the `fetch_items` loop: continue
with a link and fail count, return the delta link, or panic. -/
inductive Next where
  | cont (link : String) (failCount : Nat)
  | done (delta : String)
  | fatal (msg : String)
deriving DecidableEq

/-- Observable effects of one iteration of the `fetch_items` loop. -/
structure StepResult (α : Type) where
  sent : List (Option (List α))
  sleeps : List Nat
  next : Next

/-- Embeds the `retry_or_panic!` macro (src/sync.rs lines 54-65): below the
cap of 3, sleep 30 s and continue with the count incremented; at the cap,
panic with the message. -/
def retryOrFatal (α : Type) (failCount : Nat) (msg : String) (link : String) :
    StepResult α :=
  if failCount < 3 then ⟨[], [30], .cont link (failCount + 1)⟩
  else ⟨[], [], .fatal msg⟩

/-- Rust `str::parse::<u64>()`: decimal parse rejecting values outside u64. -/
def parseU64 (s : String) : Option Nat :=
  match s.toNat? with
  | some n => if n < U64 then some n else none
  | none => none

/-- One iteration of the `fetch_items` loop (src/sync.rs lines 77-190),
given the result of `get` for the current link (`none` when `get` returned
a transport error). Sends, sleeps and the next control state are recorded. -/
def fetchStep (α : Type) (resetLink link : String) (failCount : Nat)
    (r : Option (Response α)) : StepResult α :=
  match r with
  | none => retryOrFatal α failCount ("Error fetching items") link
  | some resp =>
    if resp.status = 200 then
      match resp.body with
      | .ok page =>
        match page.link with
        | .More next => ⟨[some page.value], [], .cont next 0⟩
        | .Done delta => ⟨[some page.value], [], .done delta⟩
      | .parseFail => retryOrFatal α failCount ("Could not deserialize sync page") link
      | .readFail => retryOrFatal α failCount ("Partial response") link
    else if resp.status = 410 ∨ resp.status = 401 then
      let newLink :=
        match resp.location with
        | some (.valid s) => s
        | some .invalid => resetLink
        | none => resetLink
      ⟨[none], [], .cont newLink failCount⟩
    else
      match resp.retryAfter with
      | some (.valid s) =>
        match parseU64 s with
        | some d => ⟨[], [d], .cont link failCount⟩
        | none => ⟨[], [], .fatal ("called Option::unwrap on a None value")⟩
      | some .invalid => ⟨[], [], .fatal ("called Result::unwrap on an Err value")⟩
      | none => retryOrFatal α failCount ("Unexpected response") link

/-- The attempt loop of `get` (src/sync.rs lines 19-38). The oracle gives the
outcome of attempt `i` (`none` is a transport error). Returns the final
result together with the sleeps performed, in seconds. -/
def getGo (α : Type) (oracle : Nat → Option (Response α))
    (i retries delay : Nat) : Option (Response α) × List Nat :=
  match oracle i with
  | some r => (some r, [])
  | none =>
    match retries with
    | 0 => (none, [])
    | rr + 1 =>
      let rest := getGo α oracle (i + 1) rr (delay * 16)
      (rest.1, delay :: rest.2)

/-- Embeds `get` (src/sync.rs lines 19-38): `retries = 3`, `delay = 1`. -/
def get (α : Type) (oracle : Nat → Option (Response α)) :
    Option (Response α) × List Nat :=
  getGo α oracle 0 3 1

/-! Snapshot persistence, embedding src/storage.rs. The filesystem is a map
from path to file contents; the CBOR codec is an external commodity and is
abstracted as an encode function (whose failure also covers an I/O error of
the buffered writer) and a decode function. -/

/-- A filesystem: contents of the file at each path, if one exists. -/
abbrev FsState (B : Type) : Type := String → Option B

/-- Create, overwrite or remove the file at `p`. -/
def setFile (B : Type) (fs : FsState B) (p : String) (v : Option B) : FsState B :=
  fun q => if q = p then v else fs q

/-- Embeds `Storage::save` (src/storage.rs lines 43-77). `tmp` is the
temporary path derived from `path` and the random integer; `encResult` is
the outcome of `serde_cbor::to_writer` into the temporary file; `createOk`
and `renameOk` inject failures of `File::create` and `fs::rename`. On any
failure after creation the temporary file is removed (`fs::remove_file`,
whose own errors are only logged and are not modelled). With `path? = none`
saving is a no-op. -/
def storageSave (B : Type) (fs : FsState B) (path? : Option String)
    (tmp : String) (encResult : Option B) (createOk renameOk : Bool) :
    FsState B :=
  match path? with
  | none => fs
  | some path =>
    if createOk then
      match encResult with
      | some b =>
        let fs1 := setFile B fs tmp (some b)
        if renameOk then setFile B (setFile B fs1 tmp none) path (some b)
        else setFile B fs1 tmp none
      | none => setFile B fs tmp none
    else fs

/-- Embeds `Storage::load` (src/storage.rs lines 17-41): `none` when there
is no path, the open fails, or decoding fails. -/
def storageLoad (B T : Type) (fs : FsState B) (path? : Option String)
    (dec : B → Option T) : Option T :=
  match path? with
  | none => none
  | some path =>
    match fs path with
    | none => none
    | some b => dec b

/-! Concrete fixtures used by counterexamples and witnesses. -/

/-- A file of the largest u64 size, a legal `Item` value. -/
def hugeFile : Item :=
  ⟨("a"), ("f"), U64 - 1, ⟨some ("/drive/root:/d"), ("personal")⟩,
    ItemType.File none, false⟩

/-- A small file sharing `hugeFile`'s id. -/
def smallFileSameId : Item :=
  ⟨("a"), ("g"), 2, ⟨some ("/drive/root:/d"), ("personal")⟩,
    ItemType.File none, false⟩

/-- A small file with a distinct id. -/
def smallFileB : Item :=
  ⟨("b"), ("g"), 2, ⟨some ("/drive/root:/d"), ("personal")⟩,
    ItemType.File none, false⟩

/-- The state holding exactly `hugeFile`; it satisfies invariant S1. -/
def bigState : DriveState := ⟨U64 - 1, [(("a"), hugeFile)]⟩

/-- A plain folder item. -/
def folderA : Item :=
  ⟨("a"), ("d"), 0, ⟨some ("/drive/root:"), ("personal")⟩, ItemType.Folder, false⟩

/-- A file on a personal drive whose `hashes` struct is present but has no
sha1 entry: claim C2 does not list it as skipped, the code skips it. -/
def specMissSha : Item :=
  ⟨("x"), ("f"), 10, ⟨some ("/drive/root:/d"), ("personal")⟩,
    ItemType.File (some ⟨none, some ("Q")⟩), false⟩

/-- A 410 Gone response carrying a valid Location header. -/
def respGone : Response Nat :=
  ⟨410, some (HeaderValue.valid ("LOC")), none, BodyResult.readFail⟩

/-! Size-accounting lemmas (src/item.rs). -/

theorem fileSizeSum_insertId_none (k : String) (v : Item)
    (l : List (String × Item)) (h : lookupId l k = none) :
    fileSizeSum (insertId k v l) = fileContrib v + fileSizeSum l := by
  induction l with
  | nil => simp [insertId, fileSizeSum]
  | cons p rest ih =>
    obtain ⟨k', v'⟩ := p
    by_cases hk : k' = k
    · simp [lookupId, hk] at h
    · simp only [lookupId, hk, if_neg, ite_false] at h
      simp only [insertId, hk, ite_false, fileSizeSum, ih h]
      omega

theorem fileSizeSum_insertId_some (k : String) (v : Item)
    (l : List (String × Item)) (p : Item) (h : lookupId l k = some p) :
    fileContrib p + fileSizeSum (insertId k v l) = fileContrib v + fileSizeSum l := by
  induction l with
  | nil => simp [lookupId] at h
  | cons q rest ih =>
    obtain ⟨k', v'⟩ := q
    by_cases hk : k' = k
    · simp only [lookupId, hk, ite_true, Option.some.injEq] at h
      subst h
      simp only [insertId, hk, ite_true, fileSizeSum]
      omega
    · simp only [lookupId, hk, ite_false] at h
      simp only [insertId, hk, ite_false, fileSizeSum]
      have := ih h
      omega

theorem fileSizeSum_removeId (k : String) (l : List (String × Item)) (p : Item)
    (h : lookupId l k = some p) :
    fileContrib p + fileSizeSum (removeId k l) = fileSizeSum l := by
  induction l with
  | nil => simp [lookupId] at h
  | cons q rest ih =>
    obtain ⟨k', v'⟩ := q
    by_cases hk : k' = k
    · simp only [lookupId, hk, ite_true, Option.some.injEq] at h
      subst h
      simp only [removeId, hk, ite_true, fileSizeSum]
    · simp only [lookupId, hk, ite_false] at h
      simp only [removeId, hk, ite_false, fileSizeSum]
      have := ih h
      omega

theorem fileContrib_lookup_le (k : String) (l : List (String × Item)) (p : Item)
    (h : lookupId l k = some p) : fileContrib p ≤ fileSizeSum l := by
  induction l with
  | nil => simp [lookupId] at h
  | cons q rest ih =>
    obtain ⟨k', v'⟩ := q
    by_cases hk : k' = k
    · simp only [lookupId, hk, ite_true, Option.some.injEq] at h
      subst h
      simp only [fileSizeSum]
      omega
    · simp only [lookupId, hk, ite_false] at h
      simp only [fileSizeSum]
      have := ih h
      omega

theorem sub_mod_of_le (a p m : Nat) (hm : 0 < m) (hp : p ≤ a % m) :
    a % m - p = (a - p) % m := by
  have hd := Nat.div_add_mod a m
  have hr : a % m < m := Nat.mod_lt _ hm
  have heq : a - p = m * (a / m) + (a % m - p) := by omega
  have h2 : (a - p) % m = (a % m - p) % m := by
    rw [heq, Nat.mul_add_mod]
  rw [h2, Nat.mod_eq_of_lt (show a % m - p < m by omega)]

theorem upsert_mod (st : DriveState) (item : Item) (st' : DriveState)
    (hS : st.size = fileSizeSum st.items % U64)
    (h : st.upsert item = some st') :
    st'.size = fileSizeSum st'.items % U64 := by
  have hU : 0 < U64 := by decide
  unfold DriveState.upsert at h
  cases hl : lookupId st.items item.id with
  | none =>
    rw [hl] at h
    have hnone := fileSizeSum_insertId_none item.id item st.items hl
    by_cases hfile : item.item_type.isFile = true
    · simp [hfile] at h
      subst h
      dsimp only
      have hc : fileContrib item = item.size := by simp [fileContrib, hfile]
      rw [hnone, hS, Nat.mod_add_mod, hc, Nat.add_comm]
    · simp [hfile] at h
      subst h
      dsimp only
      have hc : fileContrib item = 0 := by simp [fileContrib, hfile]
      rw [hnone, hc, Nat.zero_add]
      exact hS
  | some p =>
    rw [hl] at h
    have hsum := fileSizeSum_insertId_some item.id item st.items p hl
    have hple := fileContrib_lookup_le item.id st.items p hl
    by_cases hpf : p.item_type.isFile = true
    · have hpc : fileContrib p = p.size := by simp [fileContrib, hpf]
      rw [hpc] at hsum hple
      by_cases hfile : item.item_type.isFile = true
      · have hc : fileContrib item = item.size := by simp [fileContrib, hfile]
        rw [hc] at hsum
        by_cases hle : p.size ≤ (st.size + item.size) % U64
        · simp [hpf, hfile, hle] at h
          subst h
          dsimp only
          have hx : (st.size + item.size) % U64 =
              (fileSizeSum st.items + item.size) % U64 := by
            rw [hS, Nat.mod_add_mod]
          rw [hx, sub_mod_of_le _ _ _ hU (by rw [← hx]; exact hle)]
          congr 1
          omega
        · simp [hpf, hfile, hle] at h
      · have hc : fileContrib item = 0 := by simp [fileContrib, hfile]
        rw [hc] at hsum
        by_cases hle : p.size ≤ st.size
        · simp [hpf, hfile, hle] at h
          subst h
          dsimp only
          rw [hS, sub_mod_of_le _ _ _ hU (by rw [← hS]; exact hle)]
          congr 1
          omega
        · simp [hpf, hfile, hle] at h
    · have hpc : fileContrib p = 0 := by simp [fileContrib, hpf]
      rw [hpc] at hsum
      simp [hpf] at h
      subst h
      dsimp only
      by_cases hfile : item.item_type.isFile = true
      · have hc : fileContrib item = item.size := by simp [fileContrib, hfile]
        rw [hc] at hsum
        simp only [hfile, ite_true]
        rw [hS, Nat.mod_add_mod]
        congr 1
        omega
      · have hc : fileContrib item = 0 := by simp [fileContrib, hfile]
        rw [hc] at hsum
        simp only [hfile, Bool.false_eq_true, ite_false]
        rw [hS]
        congr 1
        omega

theorem delete_mod (st : DriveState) (item : Item) (st' : DriveState)
    (hS : st.size = fileSizeSum st.items % U64)
    (h : st.delete item = some st') :
    st'.size = fileSizeSum st'.items % U64 := by
  have hU : 0 < U64 := by decide
  unfold DriveState.delete at h
  cases hl : lookupId st.items item.id with
  | none =>
    rw [hl] at h
    simp only [Option.some.injEq] at h
    subst h
    exact hS
  | some p =>
    rw [hl] at h
    have hsum := fileSizeSum_removeId item.id st.items p hl
    have hple := fileContrib_lookup_le item.id st.items p hl
    by_cases hpf : p.item_type.isFile = true
    · have hpc : fileContrib p = p.size := by simp [fileContrib, hpf]
      rw [hpc] at hsum hple
      by_cases hle : p.size ≤ st.size
      · simp [hpf, hle] at h
        subst h
        dsimp only
        rw [hS, sub_mod_of_le _ _ _ hU (by rw [← hS]; exact hle)]
        congr 1
        omega
      · simp [hpf, hle] at h
    · have hpc : fileContrib p = 0 := by simp [fileContrib, hpf]
      rw [hpc] at hsum
      simp [hpf] at h
      subst h
      dsimp only
      rw [hS]
      congr 1
      omega

theorem runOps_mod (ops : List Op) (st st' : DriveState)
    (hS : st.size = fileSizeSum st.items % U64)
    (h : runOps st ops = some st') :
    st'.size = fileSizeSum st'.items % U64 := by
  induction ops generalizing st with
  | nil =>
    simp only [runOps, Option.some.injEq] at h
    subst h
    exact hS
  | cons op rest ih =>
    simp only [runOps] at h
    cases hop : applyOp st op with
    | none => rw [hop] at h; exact absurd h (by simp)
    | some st1 =>
      rw [hop] at h
      refine ih st1 ?_ h
      cases op with
      | upsert item => exact upsert_mod st item st1 hS hop
      | delete item => exact delete_mod st item st1 hS hop
      | reset =>
        simp only [applyOp, Option.some.injEq] at hop
        subst hop
        simp [DriveState.reset, fileSizeSum]

/-- C1 (amended): after any sequence of `upsert`/`delete`/`reset` operations
on a fresh `DriveState` that completes without a panic, `size` equals the sum
of the sizes of the file-typed items in `items` taken modulo `2 ^ 64`; in
particular the two are equal whenever that sum fits in a `u64`. The unreduced
equality of the original claim fails when the running total overflows, see
the counterexample. -/
theorem size_invariant_mod (ops : List Op) (st : DriveState)
    (h : runOps DriveState.fresh ops = some st) :
    st.size = fileSizeSum st.items % U64 ∧
    (fileSizeSum st.items < U64 → st.size = fileSizeSum st.items) := by
  have h1 : st.size = fileSizeSum st.items % U64 :=
    runOps_mod ops DriveState.fresh st (by simp [DriveState.fresh, fileSizeSum]) h
  exact ⟨h1, fun hlt => by rw [h1, Nat.mod_eq_of_lt hlt]⟩

/-- Witness for `size_invariant_mod` at the one-operation sequence
`[reset]`. -/
theorem size_invariant_mod_witness :
    runOps DriveState.fresh [Op.reset] = some DriveState.fresh ∧
    DriveState.fresh.size = fileSizeSum DriveState.fresh.items % U64 :=
  ⟨rfl, (size_invariant_mod [Op.reset] DriveState.fresh rfl).1⟩

/-- Counterexample to C1 as stated: upserting a file of size `2 ^ 64 - 1`
and then a file of size `2` into a fresh state succeeds, but the resulting
`size` field is `1`, not the sum `2 ^ 64 + 1` of the file sizes — the `u64`
running total wrapped. -/
theorem size_invariant_counterexample :
    runOps DriveState.fresh [Op.upsert hugeFile, Op.upsert smallFileB] =
      some ⟨1, [(("a"), hugeFile), (("b"), smallFileB)]⟩ ∧
    fileSizeSum [(("a"), hugeFile), (("b"), smallFileB)] ≠ 1 := by
  constructor
  · rfl
  · decide

/-- C5 (amended): for a `DriveState` satisfying invariant S1, the assertion
in `delete` can never fail, and the assertion in `upsert` can never fail
provided the addition `size + item.size` does not overflow the `u64`; with
an overflowing addition the assertion can fail, see the counterexample. -/
theorem asserts_unreachable (st : DriveState) (item : Item)
    (hS : st.size = fileSizeSum st.items) :
    (st.size + item.size < U64 → (st.upsert item).isSome = true) ∧
    (st.delete item).isSome = true := by
  constructor
  · intro hov
    unfold DriveState.upsert
    cases hl : lookupId st.items item.id with
    | none =>
      by_cases hfile : item.item_type.isFile = true <;> simp [hl, hfile]
    | some p =>
      have hple := fileContrib_lookup_le item.id st.items p hl
      by_cases hpf : p.item_type.isFile = true
      · have hpc : fileContrib p = p.size := by simp [fileContrib, hpf]
        rw [hpc, ← hS] at hple
        by_cases hfile : item.item_type.isFile = true
        · have hmod : (st.size + item.size) % U64 = st.size + item.size :=
            Nat.mod_eq_of_lt hov
          have hle : p.size ≤ (st.size + item.size) % U64 := by
            rw [hmod]; omega
          simp [hl, hpf, hfile, hle]
        · have hle : p.size ≤ st.size := hple
          simp [hl, hpf, hfile, hle]
      · simp [hl, hpf]
  · unfold DriveState.delete
    cases hl : lookupId st.items item.id with
    | none => simp [hl]
    | some p =>
      have hple := fileContrib_lookup_le item.id st.items p hl
      by_cases hpf : p.item_type.isFile = true
      · have hpc : fileContrib p = p.size := by simp [fileContrib, hpf]
        rw [hpc, ← hS] at hple
        simp [hl, hpf, hple]
      · simp [hl, hpf]

/-- Witness for `asserts_unreachable` at a fresh state and a small file. -/
theorem asserts_unreachable_witness :
    DriveState.fresh.size = fileSizeSum DriveState.fresh.items ∧
    (DriveState.fresh.delete smallFileB).isSome = true :=
  ⟨rfl, (asserts_unreachable DriveState.fresh smallFileB rfl).2⟩

/-- Counterexample to C5 as stated: `bigState` satisfies invariant S1
exactly, yet upserting a 2-byte file over the `2 ^ 64 - 1`-byte file with
the same id makes the wrapped running total `1`, and the assertion
`prev.size <= self.size` fails (the upsert panics). -/
theorem asserts_unreachable_counterexample :
    bigState.size = fileSizeSum bigState.items ∧
    bigState.upsert smallFileSameId = none := by
  constructor
  · decide
  · rfl

/-! Applier lemmas (src/sync.rs, src/main.rs). -/

theorem runMsgs_append (st : DriveState) (l1 l2 : List Msg) :
    runMsgs st (l1 ++ l2) =
      match runMsgs st l1 with
      | some s => runMsgs s l2
      | none => none := by
  induction l1 generalizing st with
  | nil => simp [runMsgs]
  | cons m rest ih =>
    simp only [List.cons_append, runMsgs]
    cases applyMsg st m with
    | none => simp
    | some s1 => simp [ih s1]

/-- C3 (amended): if the Applier processes a message sequence containing a
`None`, split as `ms1 ++ [none] ++ ms2` with no `None` in `ms2` (so the
`none` shown is the last one), then the final state is exactly the state
obtained by applying only the messages after the last `None` to a fresh
state. Items delivered strictly before the last `None` are all removed by
the reset; they survive only if re-delivered afterwards, which refutes the
unconditional original wording (see the counterexample). -/
theorem reset_forgets (st0 : DriveState) (ms1 ms2 : List Msg) (st : DriveState)
    (_hlast : (none : Msg) ∉ ms2)
    (hrun : runMsgs st0 (ms1 ++ none :: ms2) = some st) :
    runMsgs DriveState.fresh ms2 = some st := by
  rw [runMsgs_append] at hrun
  cases h1 : runMsgs st0 ms1 with
  | none => rw [h1] at hrun; exact absurd hrun (by simp)
  | some s1 =>
    rw [h1] at hrun
    simpa [runMsgs, applyMsg, DriveState.reset, DriveState.fresh] using hrun

/-- Witness for `reset_forgets`: one batch, then the reset, then nothing. -/
theorem reset_forgets_witness :
    ((none : Msg) ∉ ([] : List Msg)) ∧
    runMsgs DriveState.fresh [] = some DriveState.fresh :=
  ⟨by simp,
   reset_forgets DriveState.fresh [some [folderA]] [] DriveState.fresh
     (by simp) rfl⟩

/-- Counterexample to C3 as stated: `folderA` is delivered in the batch at
position 0, strictly before the last `None` at position 1, yet it is
re-delivered after the reset and so is a value of the final items map. -/
theorem reset_forgets_counterexample :
    runMsgs DriveState.fresh [some [folderA], none, some [folderA]] =
      some ⟨0, [(("a"), folderA)]⟩ ∧
    lookupId [(("a"), folderA)] ("a") = some folderA := ⟨rfl, rfl⟩

theorem mem_insertId (q : String × Item) (k : String) (v : Item)
    (l : List (String × Item)) (h : q ∈ insertId k v l) :
    q = (k, v) ∨ q ∈ l := by
  induction l with
  | nil => simpa [insertId] using h
  | cons p rest ih =>
    obtain ⟨k', v'⟩ := p
    by_cases hk : k' = k
    · simp only [insertId, hk, ite_true, List.mem_cons] at h
      rcases h with h | h
      · exact Or.inl h
      · exact Or.inr (List.mem_cons_of_mem _ h)
    · simp only [insertId, hk, ite_false, List.mem_cons] at h
      rcases h with h | h
      · exact Or.inr (by simp [h])
      · rcases ih h with h2 | h2
        · exact Or.inl h2
        · exact Or.inr (List.mem_cons_of_mem _ h2)

theorem mem_removeId (q : String × Item) (k : String)
    (l : List (String × Item)) (h : q ∈ removeId k l) : q ∈ l := by
  induction l with
  | nil => simpa [removeId] using h
  | cons p rest ih =>
    obtain ⟨k', v'⟩ := p
    by_cases hk : k' = k
    · simp only [removeId, hk, ite_true] at h
      exact List.mem_cons_of_mem _ h
    · simp only [removeId, hk, ite_false, List.mem_cons] at h
      rcases h with h | h
      · simp [h]
      · exact List.mem_cons_of_mem _ (ih h)

theorem handle_no_deleted (st st' : DriveState) (item : Item)
    (hinv : ∀ q ∈ st.items, q.2.deleted = false)
    (h : handleItem st item = some st') :
    ∀ q ∈ st'.items, q.2.deleted = false := by
  unfold handleItem at h
  by_cases hd : item.deleted = true
  · rw [if_pos hd] at h
    unfold DriveState.delete at h
    cases hl : lookupId st.items item.id with
    | none =>
      rw [hl] at h
      simp only [Option.some.injEq] at h
      subst h
      exact hinv
    | some p =>
      rw [hl] at h
      intro q hq
      by_cases hpf : p.item_type.isFile = true
      · by_cases hle : p.size ≤ st.size
        · simp [hpf, hle] at h
          subst h
          exact hinv q (mem_removeId q item.id st.items (by simpa using hq))
        · simp [hpf, hle] at h
      · simp [hpf] at h
        subst h
        exact hinv q (mem_removeId q item.id st.items (by simpa using hq))
  · rw [if_neg hd] at h
    simp only [Bool.not_eq_true] at hd
    unfold DriveState.upsert at h
    have hins : ∀ q ∈ insertId item.id item st.items, q.2.deleted = false := by
      intro q hq
      rcases mem_insertId q item.id item st.items hq with h2 | h2
      · rw [h2]; exact hd
      · exact hinv q h2
    cases hl : lookupId st.items item.id with
    | none =>
      rw [hl] at h
      simp only [Option.some.injEq] at h
      subst h
      exact hins
    | some p =>
      rw [hl] at h
      by_cases hpf : p.item_type.isFile = true
      · by_cases hle : p.size ≤
            (if item.item_type.isFile = true then (st.size + item.size) % U64
             else st.size)
        · simp only [hpf, ite_true, if_pos hle, Option.some.injEq] at h
          subst h
          exact hins
        · simp only [hpf, ite_true, if_neg hle] at h
          exact absurd h (by simp)
      · simp [hpf] at h
        subst h
        exact hins

theorem batch_no_deleted (b : List Item) (st st' : DriveState)
    (hinv : ∀ q ∈ st.items, q.2.deleted = false)
    (h : applyBatch st b = some st') :
    ∀ q ∈ st'.items, q.2.deleted = false := by
  induction b generalizing st with
  | nil =>
    simp only [applyBatch, Option.some.injEq] at h
    subst h
    exact hinv
  | cons i rest ih =>
    simp only [applyBatch] at h
    cases hstep : handleItem st i with
    | none => rw [hstep] at h; exact absurd h (by simp)
    | some st1 =>
      rw [hstep] at h
      exact ih st1 (handle_no_deleted st st1 i hinv hstep) h

/-- C4: applying any sequence of batches to a fresh `DriveState` through
the Applier dispatch (`delete` when `item.deleted` is set, `upsert`
otherwise), no item with the `deleted` flag present is a value of the final
items map. -/
theorem no_deleted_items (bs : List (List Item)) (st : DriveState)
    (h : runBatches DriveState.fresh bs = some st) :
    ∀ q ∈ st.items, q.2.deleted = false := by
  have hgen : ∀ (bs : List (List Item)) (s s' : DriveState),
      (∀ q ∈ s.items, q.2.deleted = false) →
      runBatches s bs = some s' → ∀ q ∈ s'.items, q.2.deleted = false := by
    intro bs
    induction bs with
    | nil =>
      intro s s' hinv hrun
      simp only [runBatches, Option.some.injEq] at hrun
      subst hrun
      exact hinv
    | cons b rest ih =>
      intro s s' hinv hrun
      simp only [runBatches] at hrun
      cases hb : applyBatch s b with
      | none => rw [hb] at hrun; exact absurd hrun (by simp)
      | some s1 =>
        rw [hb] at hrun
        exact ih s1 s' (batch_no_deleted b s s1 hinv hb) hrun
  exact hgen bs DriveState.fresh st (by simp [DriveState.fresh]) h

/-- Witness for `no_deleted_items` at a single one-item batch. -/
theorem no_deleted_items_witness :
    runBatches DriveState.fresh [[folderA]] = some ⟨0, [(("a"), folderA)]⟩ ∧
    folderA.deleted = false :=
  ⟨rfl,
   no_deleted_items [[folderA]] ⟨0, [(("a"), folderA)]⟩ rfl (("a"), folderA)
     (by simp)⟩

/-! Fetcher theorems (src/sync.rs). -/

/-- C6: when a fetch step receives a 410 Gone or 401 Unauthorized response,
it sends exactly one `None` reset message, continues with the link set to
the `Location` header when that header is present and valid and to
`reset_link` otherwise, and leaves `fail_count` unchanged (and performs no
sleep). -/
theorem cursor_expiry_step (α : Type) (resetLink link : String)
    (failCount : Nat) (resp : Response α)
    (hst : resp.status = 410 ∨ resp.status = 401) :
    fetchStep α resetLink link failCount (some resp) =
      ⟨[none], [],
        Next.cont
          (match resp.location with
           | some (HeaderValue.valid s) => s
           | some HeaderValue.invalid => resetLink
           | none => resetLink)
          failCount⟩ := by
  have h200 : ¬ resp.status = 200 := by rcases hst with h | h <;> omega
  simp [fetchStep, h200, hst]

/-- Witness for `cursor_expiry_step` at the concrete response `respGone`. -/
theorem cursor_expiry_step_witness :
    fetchStep Nat ("R") ("L") 0 (some respGone) =
      ⟨[none], [], Next.cont ("LOC") 0⟩ :=
  cursor_expiry_step Nat ("R") ("L") 0 respGone (Or.inl rfl)

/-- C7 (amended): a transport error is retried inside `get` up to 3 times
with sleeps of 1, 16 and 256 seconds (initial 1 s, multiplied by 16 at each
retry); success within the retries returns the response. When all 4 attempts
fail, `get` returns the error, and `fetch_items` does not terminate at once:
via `retry_or_panic` it sleeps 30 s and continues with `fail_count`
incremented while `fail_count < 3`, and only panics once `fail_count`
reaches 3 (see the counterexample to the original wording). -/
theorem transport_retry_policy (α : Type) (oracle : Nat → Option (Response α))
    (resetLink link : String) (failCount : Nat)
    (h0 : oracle 0 = none) (h1 : oracle 1 = none) (h2 : oracle 2 = none)
    (h3 : oracle 3 = none) :
    get α oracle = (none, [1, 16, 256]) ∧
    (∀ (oracle2 : Nat → Option (Response α)) (r : Response α),
      oracle2 0 = none → oracle2 1 = none → oracle2 2 = some r →
      get α oracle2 = (some r, [1, 16])) ∧
    (failCount < 3 →
      fetchStep α resetLink link failCount none =
        ⟨[], [30], Next.cont link (failCount + 1)⟩) ∧
    (3 ≤ failCount →
      fetchStep α resetLink link failCount none =
        ⟨[], [], Next.fatal ("Error fetching items")⟩) := by
  refine ⟨?_, ?_, ?_, ?_⟩
  · simp [get, getGo, h0, h1, h2, h3]
  · intro oracle2 r g0 g1 g2
    simp [get, getGo, g0, g1, g2]
  · intro hlt
    simp [fetchStep, retryOrFatal, hlt]
  · intro hge
    have : ¬ failCount < 3 := by omega
    simp [fetchStep, retryOrFatal, this]

/-- Witness for `transport_retry_policy` at the always-failing oracle and
`fail_count = 0`. -/
theorem transport_retry_policy_witness :
    get Nat (fun _ => none) = (none, [1, 16, 256]) ∧
    fetchStep Nat ("R") ("L") 0 none = ⟨[], [30], Next.cont ("L") 1⟩ :=
  ⟨(transport_retry_policy Nat (fun _ => none) ("R") ("L") 0
      rfl rfl rfl rfl).1,
   (transport_retry_policy Nat (fun _ => none) ("R") ("L") 0
      rfl rfl rfl rfl).2.2.1 (by omega)⟩

/-- Counterexample to C7 as stated: when every attempt is a transport error,
`get` performs the sleeps 1, 16, 256 and then returns the error — and the
fetch does not terminate: the next step of `fetch_items` with
`fail_count = 0` continues (after a 30 s sleep) with `fail_count = 1`
instead of failing fatally. -/
theorem transport_retry_counterexample :
    get Nat (fun _ => none) = (none, [1, 16, 256]) ∧
    (fetchStep Nat ("R") ("L") 0 none).next = Next.cont ("L") 1 := ⟨rfl, rfl⟩

/-! Storage theorems (src/storage.rs). -/

/-- C8: saving a serializable value at a writable path and then loading
returns exactly that value: if encoding `x` yields bytes `b` that decode
back to `x` (the CBOR codec is an external commodity assumed to round-trip),
and file creation and rename succeed, then `load` after `save` is
`some x`. -/
theorem storage_roundtrip (B T : Type) (fs : FsState B) (path tmp : String)
    (enc : T → Option B) (dec : B → Option T) (x : T) (b : B)
    (henc : enc x = some b) (hdec : dec b = some x) :
    storageLoad B T
      (storageSave B fs (some path) tmp (enc x) true true)
      (some path) dec = some x := by
  simp [storageSave, storageLoad, henc, setFile, hdec]

/-- Witness for `storage_roundtrip` with the identity codec on `Nat`. -/
theorem storage_roundtrip_witness :
    storageLoad Nat Nat
      (storageSave Nat (fun _ => none) (some ("p")) ("p.1234") (some 7)
        true true)
      (some ("p")) some = some 7 :=
  storage_roundtrip Nat Nat (fun _ => none) ("p") ("p.1234")
    (fun n => some n) (fun n => some n) 7 7 rfl rfl

/-- C9: `save` is atomic. Assuming the temporary path is fresh and distinct
from the target: if file creation fails the filesystem is untouched; if
serialization fails, or the rename fails, the target is unchanged and the
temporary file is gone; only when every step succeeds is the target
replaced by the new contents, with the temporary file gone. -/
theorem storage_save_atomic (B : Type) (fs : FsState B) (path tmp : String)
    (encResult : Option B) (createOk renameOk : Bool)
    (htmp : fs tmp = none) (hne : tmp ≠ path) :
    (createOk = false →
      storageSave B fs (some path) tmp encResult createOk renameOk = fs) ∧
    (encResult = none →
      storageSave B fs (some path) tmp encResult createOk renameOk path
          = fs path ∧
      storageSave B fs (some path) tmp encResult createOk renameOk tmp
          = none) ∧
    (renameOk = false →
      storageSave B fs (some path) tmp encResult createOk renameOk path
          = fs path ∧
      storageSave B fs (some path) tmp encResult createOk renameOk tmp
          = none) ∧
    (∀ b, createOk = true → renameOk = true → encResult = some b →
      storageSave B fs (some path) tmp encResult createOk renameOk path
          = some b ∧
      storageSave B fs (some path) tmp encResult createOk renameOk tmp
          = none) := by
  have hpt : ¬ path = tmp := fun hh => hne hh.symm
  refine ⟨?_, ?_, ?_, ?_⟩
  · intro hc
    subst hc
    simp [storageSave]
  · intro he
    subst he
    cases createOk with
    | false => simp [storageSave, htmp]
    | true => simp [storageSave, setFile, hpt]
  · intro hr
    subst hr
    cases createOk with
    | false => simp [storageSave, htmp]
    | true =>
      cases encResult with
      | none => simp [storageSave, setFile, hpt]
      | some b => simp [storageSave, setFile, hpt]
  · intro b hc hr he
    subst hc; subst hr; subst he
    simp [storageSave, setFile, hne]

/-- Witness for `storage_save_atomic` on an empty filesystem with a failed
serialization. -/
theorem storage_save_atomic_witness :
    storageSave Nat (fun _ => none) (some ("p")) ("t") none true false ("p")
        = (fun _ => (none : Option Nat)) ("p") ∧
    storageSave Nat (fun _ => none) (some ("p")) ("t") none true false ("t")
        = none :=
  (storage_save_atomic Nat (fun _ => none) ("p") ("t") none true false
    rfl (by decide)).2.1 rfl

/-! Bucketer counting lemmas (src/size.rs). -/

theorem bucketFold_counts (l : List Item) :
    ∀ (fc foc : Nat) (m : BySize), fc < U32 → foc < U32 →
    (l.foldl bucketStep (fc, foc, m)).1 = (fc + countFiles l) % U32 ∧
    (l.foldl bucketStep (fc, foc, m)).2.1 = (foc + countFolders l) % U32 := by
  induction l with
  | nil =>
    intro fc foc m hfc hfoc
    simp [countFiles, countFolders, Nat.mod_eq_of_lt hfc, Nat.mod_eq_of_lt hfoc]
  | cons i rest ih =>
    intro fc foc m hfc hfoc
    have hU : 0 < U32 := by decide
    cases hty : i.item_type with
    | File hs0 =>
      have hcF : countFiles (i :: rest) = countFiles rest + 1 := by
        simp [countFiles, List.countP_cons, ItemType.isFile, hty]
      have hcD : countFolders (i :: rest) = countFolders rest := by
        simp [countFolders, List.countP_cons, folderOrPackage, hty]
      have hmod : (fc + 1) % U32 < U32 := Nat.mod_lt _ hU
      cases hcl : classify i with
      | none =>
        have hgoal := ih ((fc + 1) % U32) foc m hmod hfoc
        simp only [List.foldl_cons, bucketStep, hty, hcl]
        refine ⟨?_, ?_⟩
        · rw [hgoal.1, Nat.mod_add_mod, hcF]
          congr 1
          omega
        · rw [hgoal.2, hcD]
      | some t =>
        obtain ⟨sz0, h0, n0⟩ := t
        have hgoal := ih ((fc + 1) % U32) foc (insertBySize sz0 h0 n0 m)
          hmod hfoc
        simp only [List.foldl_cons, bucketStep, hty, hcl]
        refine ⟨?_, ?_⟩
        · rw [hgoal.1, Nat.mod_add_mod, hcF]
          congr 1
          omega
        · rw [hgoal.2, hcD]
    | Folder =>
      have hcF : countFiles (i :: rest) = countFiles rest := by
        simp [countFiles, List.countP_cons, ItemType.isFile, hty]
      have hcD : countFolders (i :: rest) = countFolders rest + 1 := by
        simp [countFolders, List.countP_cons, folderOrPackage, hty]
      have hmod : (foc + 1) % U32 < U32 := Nat.mod_lt _ hU
      have hgoal := ih fc ((foc + 1) % U32) m hfc hmod
      simp only [List.foldl_cons, bucketStep, hty]
      refine ⟨hgoal.1.trans (by rw [hcF]), ?_⟩
      rw [hgoal.2, Nat.mod_add_mod, hcD]
      congr 1
      omega
    | Package =>
      have hcF : countFiles (i :: rest) = countFiles rest := by
        simp [countFiles, List.countP_cons, ItemType.isFile, hty]
      have hcD : countFolders (i :: rest) = countFolders rest + 1 := by
        simp [countFolders, List.countP_cons, folderOrPackage, hty]
      have hmod : (foc + 1) % U32 < U32 := Nat.mod_lt _ hU
      have hgoal := ih fc ((foc + 1) % U32) m hfc hmod
      simp only [List.foldl_cons, bucketStep, hty]
      refine ⟨hgoal.1.trans (by rw [hcF]), ?_⟩
      rw [hgoal.2, Nat.mod_add_mod, hcD]
      congr 1
      omega

theorem countP_replicate (p : Item → Bool) (n : Nat) (x : Item) :
    (List.replicate n x).countP p = if p x then n else 0 := by
  induction n with
  | zero => simp
  | succ k ih =>
    cases hp : p x <;>
      simp [List.replicate_succ, List.countP_cons, ih, hp]

/-- C10 (amended): `bucket_by_size` returns as `file_count` the number of
file-typed items of the map — including files skipped from the duplicate
buckets — and as `folder_count` the number of folder-typed plus
package-typed items, each taken modulo `2 ^ 32` because the counters are
`u32` (see the counterexample for the wrap). -/
theorem bucket_counts_mod (l : List Item) :
    (bucket_by_size l).1 = countFiles l % U32 ∧
    (bucket_by_size l).2.1 = countFolders l % U32 := by
  have h := bucketFold_counts l 0 0 [] (by decide) (by decide)
  simpa [bucket_by_size] using h

/-- Counterexample to C10 as stated: on a map of `2 ^ 32` folder items the
returned `folder_count` is `0`, not `2 ^ 32`: the `u32` counter wrapped. -/
theorem bucket_counts_counterexample :
    (bucket_by_size (List.replicate U32 folderA)).2.1 = 0 ∧
    countFolders (List.replicate U32 folderA) = U32 ∧ (0 : Nat) ≠ U32 := by
  have hc : countFolders (List.replicate U32 folderA) = U32 := by
    rw [countFolders, countP_replicate]
    simp [folderOrPackage, folderA]
  refine ⟨?_, hc, by decide⟩
  have h := (bucketFold_counts (List.replicate U32 folderA) 0 0 []
    (by decide) (by decide)).2
  rw [bucket_by_size, h, hc]
  simp

/-! Bucket-map lemmas (src/size.rs). -/

theorem hashNames_insertName_same (h : ItemHash) (n : String) (inner : Inner) :
    hashNames (insertName h n inner) h =
      some ((hashNames inner h).getD [] ++ [n]) := by
  induction inner with
  | nil => simp [insertName, hashNames]
  | cons q rest ih =>
    obtain ⟨h0, ns⟩ := q
    by_cases hh : h0 = h
    · subst hh
      simp [insertName, hashNames]
    · simp [insertName, hashNames, hh, ih]

theorem hashNames_insertName_other (h h' : ItemHash) (n : String)
    (inner : Inner) (hne : h' ≠ h) :
    hashNames (insertName h n inner) h' = hashNames inner h' := by
  induction inner with
  | nil => simp [insertName, hashNames, Ne.symm hne]
  | cons q rest ih =>
    obtain ⟨h0, ns⟩ := q
    by_cases hh : h0 = h
    · subst hh
      simp [insertName, hashNames, Ne.symm hne]
    · by_cases hh2 : h0 = h' <;> simp [insertName, hashNames, hh, hh2, ih, hne]

theorem sizeEntry_eq_none (m : BySize) (sz : Nat) (hk : ∀ q ∈ m, q.1 ≠ sz) :
    sizeEntry m sz = none := by
  induction m with
  | nil => rfl
  | cons q rest ih =>
    obtain ⟨sz0, inner0⟩ := q
    have h0 : sz0 ≠ sz := hk (sz0, inner0) (by simp)
    simp only [sizeEntry, if_neg h0]
    exact ih (fun p hp => hk p (List.mem_cons_of_mem _ hp))

theorem mem_insertBySize_keys (q : Nat × Inner) (sz : Nat) (h : ItemHash)
    (n : String) (m : BySize) (hq : q ∈ insertBySize sz h n m) :
    q.1 = sz ∨ ∃ p ∈ m, q.1 = p.1 := by
  induction m with
  | nil =>
    simp only [insertBySize, List.mem_singleton] at hq
    subst hq
    exact Or.inl rfl
  | cons p0 rest ih =>
    obtain ⟨sz0, inner0⟩ := p0
    by_cases hlt : sz < sz0
    · simp only [insertBySize, if_pos hlt, List.mem_cons] at hq
      rcases hq with hq | hq | hq
      · subst hq; exact Or.inl rfl
      · exact Or.inr ⟨(sz0, inner0), by simp, by rw [hq]⟩
      · exact Or.inr ⟨q, List.mem_cons_of_mem _ hq, rfl⟩
    · by_cases heq : sz = sz0
      · simp only [insertBySize, if_neg hlt, if_pos heq, List.mem_cons] at hq
        rcases hq with hq | hq
        · subst hq; exact Or.inl heq.symm
        · exact Or.inr ⟨q, List.mem_cons_of_mem _ hq, rfl⟩
      · simp only [insertBySize, if_neg hlt, if_neg heq, List.mem_cons] at hq
        rcases hq with hq | hq
        · exact Or.inr ⟨(sz0, inner0), by simp, by rw [hq]⟩
        · rcases ih hq with h2 | ⟨p, hp, h2⟩
          · exact Or.inl h2
          · exact Or.inr ⟨p, List.mem_cons_of_mem _ hp, h2⟩

theorem sorted_insertBySize (sz : Nat) (h : ItemHash) (n : String) (m : BySize)
    (hs : List.Pairwise (fun a b => a.1 < b.1) m) :
    List.Pairwise (fun a b => a.1 < b.1) (insertBySize sz h n m) := by
  induction m with
  | nil => simp [insertBySize]
  | cons p0 rest ih =>
    obtain ⟨sz0, inner0⟩ := p0
    rw [List.pairwise_cons] at hs
    obtain ⟨hhead, hrest⟩ := hs
    by_cases hlt : sz < sz0
    · simp only [insertBySize, if_pos hlt]
      refine List.Pairwise.cons ?_ (List.Pairwise.cons hhead hrest)
      intro q hq
      rcases List.mem_cons.mp hq with hq | hq
      · rw [hq]; exact hlt
      · have := hhead q hq
        exact lt_trans hlt this
    · by_cases heq : sz = sz0
      · simp only [insertBySize, if_neg hlt, if_pos heq]
        exact List.Pairwise.cons hhead hrest
      · simp only [insertBySize, if_neg hlt, if_neg heq]
        refine List.Pairwise.cons ?_ (ih hrest)
        intro q hq
        rcases mem_insertBySize_keys q sz h n rest hq with h2 | ⟨p, hp, h2⟩
        · rw [h2]; omega
        · rw [h2]; exact hhead p hp

theorem namesAt_insert_same (sz : Nat) (h : ItemHash) (n : String) (m : BySize)
    (hs : List.Pairwise (fun a b => a.1 < b.1) m) :
    namesAt (insertBySize sz h n m) sz h = namesAt m sz h ++ [n] := by
  induction m with
  | nil => simp [insertBySize, namesAt, sizeEntry, hashNames]
  | cons p0 rest ih =>
    obtain ⟨sz0, inner0⟩ := p0
    rw [List.pairwise_cons] at hs
    obtain ⟨hhead, hrest⟩ := hs
    by_cases hlt : sz < sz0
    · have hsz0 : ¬ sz0 = sz := by omega
      have hrnone : sizeEntry rest sz = none := by
        apply sizeEntry_eq_none
        intro p hp
        have := hhead p hp
        omega
      simp only [insertBySize, if_pos hlt]
      simp [namesAt, sizeEntry, hashNames, hsz0, hrnone]
    · by_cases heq : sz = sz0
      · subst heq
        simp only [insertBySize, if_neg hlt, if_pos rfl]
        simp [namesAt, sizeEntry, hashNames_insertName_same]
      · have h3 : sz0 ≠ sz := fun hh => heq hh.symm
        simp only [insertBySize, if_neg hlt, if_neg heq]
        simpa [namesAt, sizeEntry, if_neg h3] using ih hrest

theorem namesAt_insert_other (sz : Nat) (h : ItemHash) (n : String)
    (sz' : Nat) (h' : ItemHash) (m : BySize)
    (hs : List.Pairwise (fun a b => a.1 < b.1) m)
    (hne : ¬(sz' = sz ∧ h' = h)) :
    namesAt (insertBySize sz h n m) sz' h' = namesAt m sz' h' := by
  induction m with
  | nil =>
    by_cases hsz : sz = sz'
    · subst hsz
      have hh : h' ≠ h := fun hh => hne ⟨rfl, hh⟩
      simp [insertBySize, namesAt, sizeEntry, hashNames, Ne.symm hh]
    · simp [insertBySize, namesAt, sizeEntry, hsz]
  | cons p0 rest ih =>
    obtain ⟨sz0, inner0⟩ := p0
    rw [List.pairwise_cons] at hs
    obtain ⟨hhead, hrest⟩ := hs
    by_cases hlt : sz < sz0
    · simp only [insertBySize, if_pos hlt]
      by_cases hsz : sz = sz'
      · subst hsz
        have hh : h' ≠ h := fun hh => hne ⟨rfl, hh⟩
        have hsz0 : ¬ sz0 = sz := by omega
        have hrnone : sizeEntry rest sz = none := by
          apply sizeEntry_eq_none
          intro p hp
          have := hhead p hp
          omega
        simp [namesAt, sizeEntry, hashNames, Ne.symm hh, hsz0, hrnone]
      · simp [namesAt, sizeEntry, hsz]
    · by_cases heq : sz = sz0
      · subst heq
        simp only [insertBySize, if_neg hlt, if_pos rfl]
        by_cases hsz : sz = sz'
        · subst hsz
          have hh : h' ≠ h := fun hh => hne ⟨rfl, hh⟩
          simp [namesAt, sizeEntry, hashNames_insertName_other h h' n inner0 hh]
        · simp [namesAt, sizeEntry, hsz]
      · simp only [insertBySize, if_neg hlt, if_neg heq]
        by_cases hsz : sz0 = sz'
        · simp [namesAt, sizeEntry, hsz]
        · simpa [namesAt, sizeEntry, hsz] using ih hrest

theorem keyNames_nil (sz : Nat) (h : ItemHash) : keyNames [] sz h = [] := rfl

theorem keyNames_cons_none (i : Item) (rest : List Item) (sz : Nat)
    (h : ItemHash) (hcl : classify i = none) :
    keyNames (i :: rest) sz h = keyNames rest sz h := by
  simp [keyNames, List.filterMap_cons, hcl]

theorem keyNames_cons_some (i : Item) (rest : List Item) (sz sz0 : Nat)
    (h h0 : ItemHash) (n0 : String) (hcl : classify i = some (sz0, h0, n0)) :
    keyNames (i :: rest) sz h =
      (if sz0 = sz ∧ h0 = h then [n0] else []) ++ keyNames rest sz h := by
  by_cases hk : sz0 = sz ∧ h0 = h
  · simp [keyNames, List.filterMap_cons, hcl, List.filter_cons, hk.1, hk.2]
  · simp [keyNames, List.filterMap_cons, hcl, List.filter_cons, hk]

theorem bucketFold_names (l : List Item) :
    ∀ (fc foc : Nat) (m : BySize),
    List.Pairwise (fun a b => a.1 < b.1) m →
    List.Pairwise (fun a b => a.1 < b.1) (l.foldl bucketStep (fc, foc, m)).2.2 ∧
    (∀ sz h, namesAt (l.foldl bucketStep (fc, foc, m)).2.2 sz h =
      namesAt m sz h ++ keyNames l sz h) := by
  induction l with
  | nil =>
    intro fc foc m hs
    exact ⟨hs, fun sz h => by simp [keyNames_nil]⟩
  | cons i rest ih =>
    intro fc foc m hs
    have heta : bucketStep (fc, foc, m) i =
        ((bucketStep (fc, foc, m) i).1, (bucketStep (fc, foc, m) i).2.1,
          (bucketStep (fc, foc, m) i).2.2) := rfl
    cases hcl : classify i with
    | none =>
      have hm : (bucketStep (fc, foc, m) i).2.2 = m := by
        cases hty : i.item_type <;> simp [bucketStep, hty, hcl]
      have hrec := ih (bucketStep (fc, foc, m) i).1
        (bucketStep (fc, foc, m) i).2.1 m hs
      rw [List.foldl_cons, heta, hm]
      refine ⟨hrec.1, fun sz h => ?_⟩
      rw [hrec.2 sz h, keyNames_cons_none i rest sz h hcl]
    | some t =>
      obtain ⟨sz0, h0, n0⟩ := t
      have hm : (bucketStep (fc, foc, m) i).2.2 = insertBySize sz0 h0 n0 m := by
        cases hty : i.item_type with
        | File hs1 => simp [bucketStep, hty, hcl]
        | Folder => simp [classify, hty] at hcl
        | Package => simp [classify, hty] at hcl
      have hsorted := sorted_insertBySize sz0 h0 n0 m hs
      have hrec := ih (bucketStep (fc, foc, m) i).1
        (bucketStep (fc, foc, m) i).2.1 (insertBySize sz0 h0 n0 m) hsorted
      rw [List.foldl_cons, heta, hm]
      refine ⟨hrec.1, fun sz h => ?_⟩
      rw [hrec.2 sz h, keyNames_cons_some i rest sz sz0 h h0 n0 hcl]
      by_cases hk : sz0 = sz ∧ h0 = h
      · obtain ⟨hk1, hk2⟩ := hk
        subst hk1; subst hk2
        rw [namesAt_insert_same sz0 h0 n0 m hs]
        simp
      · have hk' : ¬(sz = sz0 ∧ h = h0) := by
          intro hc
          exact hk ⟨hc.1.symm, hc.2.symm⟩
        rw [namesAt_insert_other sz0 h0 n0 sz h m hs hk']
        simp [hk]

theorem classify_eq_specProcess (item : Item) :
    classify item = specProcess item := by
  cases hty : item.item_type with
  | Folder => simp [classify, specProcess, hty]
  | Package => simp [classify, specProcess, hty]
  | File hashes =>
    cases hp : item.parent.path with
    | none => simp [classify, specProcess, hty, hp]
    | some path =>
      cases hh : hashes with
      | none =>
        simp only [classify, specProcess, hty, hp, hh]
        by_cases hig : ignore_path
            (trim_start_matches path ("/drive/root:/")) item.name = true <;>
          simp [hig]
      | some h =>
        simp only [classify, specProcess, hty, hp, hh]
        by_cases hig : ignore_path
            (trim_start_matches path ("/drive/root:/")) item.name = true
        · simp [hig]
        · simp only [hig, Bool.false_eq_true, ite_false, specSelectedHash]
          by_cases hdt : item.parent.drive_type = "personal"
          · simp only [hdt, ite_true]
            cases h.sha <;> simp
          · by_cases hdt2 : item.parent.drive_type = "business" ∨
                item.parent.drive_type = "documentLibrary"
            · simp only [hdt, ite_false, hdt2, ite_true]
              cases h.xor <;> simp
            · simp [hdt, hdt2]

theorem filterMap_classify_eq (l : List Item) :
    l.filterMap classify = l.filterMap specProcess := by
  induction l with
  | nil => rfl
  | cons i rest ih => simp [List.filterMap_cons, classify_eq_specProcess i, ih]

/-- C2 (amended): `bucket_by_size` returns a map whose outer keys are
strictly sorted by size, and whose list of recorded paths at every key pair
`(sz, h)` consists, in order, of exactly the non-skipped files that the
spec's rules send to that key: a File item is skipped iff its parent path
is absent, its `hashes` is absent, its drive type is unknown, its path is
ignored by the `.svn-base` policy, or — the amendment — the hash selected
by its drive type (sha1 for personal, quickXor for business or
documentLibrary) is absent; a recorded file appears under
`(item.size, selected hash)` with path `dirname ++ "/" ++ basename`,
`dirname` being the parent path with the leading `/drive/root:/` stripped.
Each such file appears exactly once because each occurrence contributes
exactly one entry to its key's list. -/
theorem bucket_by_size_spec (l : List Item) :
    (∀ item, classify item = specProcess item) ∧
    List.Pairwise (fun a b => a.1 < b.1) (bucket_by_size l).2.2 ∧
    (∀ sz h, namesAt (bucket_by_size l).2.2 sz h = specKeyNames l sz h) := by
  have hfold := bucketFold_names l 0 0 [] (by simp)
  have hkey : ∀ sz h, keyNames l sz h = specKeyNames l sz h := by
    intro sz h
    rw [keyNames, specKeyNames, filterMap_classify_eq l]
  refine ⟨classify_eq_specProcess, hfold.1, fun sz h => ?_⟩
  rw [show bucket_by_size l = l.foldl bucketStep (0, 0, []) from rfl,
    hfold.2 sz h, ← hkey sz h]
  simp [namesAt, sizeEntry]

/-- Counterexample to C2 as stated: `specMissSha` is a personal-drive file
with `hashes` present, parent path present, known drive type, and a path
the ignore policy accepts — none of the claim's skip conditions — yet
`bucket_by_size` records it nowhere, because its `hashes.sha1` is absent
and the code skips it. -/
theorem bucket_by_size_counterexample :
    claimSkip specMissSha = false ∧
    (bucket_by_size [specMissSha]).2.2 = [] := ⟨rfl, rfl⟩

end Msod
